import Mathlib

/-!
# Verification of the Swift Task hierarchical task manager

Shallow embedding of the logical core of `src/script.js` (a browser task
manager organised as boards → folders → tasks), together with theorems
settling the specification claims about it.

Conventions of the embedding:
* JS strings stay `String`; `toLowerCase` becomes `String.toLower`,
  `trim` becomes `String.trim`, `includes` becomes infix containment on
  the character lists.
* The source compares `new Date(dateString + "T" + timeString)` values.
  All date/time strings in the application come from `<input type="date">`
  and `<input type="time">` controls and therefore have the fixed-width
  forms `YYYY-MM-DD` and `HH:MM`; on those, `Date` ordering coincides with
  lexicographic ordering of the combined string, which is how it is
  modelled here (`dateTimeKey`).
* `calculateCountdown` reads the wall clock; here both instants are passed
  in explicitly as milliseconds since the epoch.
* `generateId()` (`Date.now().toString(36) + Math.random()...`) is
  documented in the source as producing a unique id; it is modelled by
  passing the generated id to each creating operation as an argument.
* Mutating operations that can fail return an `OpOutcome` carrying the
  store after the call together with an optional error, because
  `updateTask` in the source mutates the task before validating, so a
  failed call can still change the store.
* Optional `folders` / `tasks` arrays (`folder.tasks || []` in the
  source) are modelled as always-present lists, so the `|| []`
  normalisations are identities.
-/

namespace SwiftTask

/-- Does `needle` occur as a contiguous run inside `haystack`?  Bool-valued
infix test on character lists, used to model JS `String.includes`. -/
def infixOfB (needle : List Char) : List Char → Bool
  | [] => needle.isEmpty
  | c :: cs => needle.isPrefixOf (c :: cs) || infixOfB needle cs

/-- A task (leaf of the hierarchy), with the fields built in `addTask`
(src/script.js:750). `lastEdited` is `null` until the first edit. -/
structure Task where
  id : String
  title : String
  priority : String
  startDate : String
  startTime : String
  dueDate : String
  dueTime : String
  description : String
  status : String
  createdAt : String
  editCount : Nat
  lastEdited : Option String
  deriving Repr, DecidableEq

/-- A folder, owning an ordered list of tasks (src/script.js:628). -/
structure Folder where
  id : String
  name : String
  createdAt : String
  tasks : List Task
  deriving Repr, DecidableEq

/-- A board, owning an ordered list of folders (src/script.js:549). -/
structure Board where
  id : String
  name : String
  createdAt : String
  folders : List Folder
  deriving Repr, DecidableEq

/-- The per-user store `currentData = { boards: [] }` (src/script.js:80). -/
structure Store where
  boards : List Board
  deriving Repr, DecidableEq

/-- JS `s.includes(term)`: `term` occurs as a contiguous substring of `s`. -/
def jsIncludes (s term : String) : Bool :=
  infixOfB term.toList s.toList

/-- JS `s.trim()`: strip leading and trailing whitespace.  Defined over the
character list so that it evaluates by kernel reduction. -/
def jsTrim (s : String) : String :=
  String.mk (((s.toList.dropWhile Char.isWhitespace).reverse.dropWhile
    Char.isWhitespace).reverse)

/-- JS `s.toLowerCase()`, character by character. -/
def jsToLower (s : String) : String :=
  String.mk (s.toList.map Char.toLower)

/-- The value compared by the source when it builds
`new Date(dateString + "T" + timeString)`; see the module comment for why
lexicographic ordering of this key models `Date` ordering on the
fixed-format inputs. -/
def dateTimeKey (dateString timeString : String) : String :=
  dateString ++ "T" ++ timeString

/-- Result of `calculateCountdown` (src/script.js:251). -/
structure Countdown where
  days : Int
  hours : Int
  minutes : Int
  seconds : Int
  overdue : Bool
  deriving Repr, DecidableEq

/-- Shallow embedding of `calculateCountdown` (src/script.js:251).
The source computes `diff = due - now` in milliseconds from the parsed due
date and the wall clock; here the two instants are explicit arguments in
milliseconds.  If `diff <= 0` it returns all-zero components with
`overdue: true`; otherwise the floor decomposition of `diff`. -/
def calculateCountdown (dueMs nowMs : Int) : Countdown :=
  let diff := dueMs - nowMs
  if diff ≤ 0 then
    { days := 0, hours := 0, minutes := 0, seconds := 0, overdue := true }
  else
    { days := diff / (1000 * 60 * 60 * 24)
      hours := (diff % (1000 * 60 * 60 * 24)) / (1000 * 60 * 60)
      minutes := (diff % (1000 * 60 * 60)) / (1000 * 60)
      seconds := (diff % (1000 * 60)) / 1000
      overdue := false }

/-- C1 (counterexample): the claim says that with `due` exactly 10 seconds
in the past the countdown is `{overdue: true, days: 0, hours: 0,
minutes: 0, seconds: 10}`; the source instead returns all-zero components
whenever `diff <= 0`.  Evaluated at `now` = 2024-01-01T00:00:00Z and `due`
ten seconds earlier. -/
theorem countdown_overdue_counterexample :
    calculateCountdown 1704067190000 1704067200000 =
      { days := 0, hours := 0, minutes := 0, seconds := 0, overdue := true } ∧
    calculateCountdown 1704067190000 1704067200000 ≠
      { days := 0, hours := 0, minutes := 0, seconds := 10, overdue := true } := by
  constructor
  · rfl
  · decide

/-- C1 (amended): for every due instant and every now with
`diff = due - now <= 0`, `calculateCountdown` returns `overdue = true`
with all of days, hours, minutes and seconds equal to `0` (not the
decomposition of `|diff|`). -/
theorem countdown_overdue_all_zero (dueMs nowMs : Int)
    (h : dueMs - nowMs ≤ 0) :
    calculateCountdown dueMs nowMs =
      { days := 0, hours := 0, minutes := 0, seconds := 0, overdue := true } := by
  simp [calculateCountdown, h]

/-- Witness for `countdown_overdue_all_zero` at `due` ten seconds before
`now`. -/
theorem countdown_overdue_all_zero_witness :
    (1704067190000 : Int) - 1704067200000 ≤ 0 ∧
    calculateCountdown 1704067190000 1704067200000 =
      { days := 0, hours := 0, minutes := 0, seconds := 0, overdue := true } :=
  ⟨by decide, countdown_overdue_all_zero 1704067190000 1704067200000 (by decide)⟩

/-- C9: for every due instant and every now with a positive difference
of `s` whole seconds, the countdown is not overdue and carries the floor
decomposition `days = s / 86400`, `hours = (s % 86400) / 3600`,
`minutes = (s % 3600) / 60`, `seconds = s % 60`. -/
theorem countdown_positive_decomposition (dueMs nowMs : Int) (s : Nat)
    (hdiff : dueMs - nowMs = 1000 * (s : Int)) (hpos : 0 < s) :
    calculateCountdown dueMs nowMs =
      { days := (s : Int) / 86400
        hours := ((s : Int) % 86400) / 3600
        minutes := ((s : Int) % 3600) / 60
        seconds := (s : Int) % 60
        overdue := false } := by
  have hns : (0 : Int) < (s : Int) := by exact_mod_cast hpos
  simp only [calculateCountdown, hdiff]
  rw [if_neg (by omega)]
  simp only [Countdown.mk.injEq, and_true]
  refine ⟨by omega, by omega, by omega, by omega⟩

/-- Witness for `countdown_positive_decomposition`: `now` =
2024-01-01T00:00:00Z, `due` = 2024-01-02T01:02:03Z, a difference of
90123 seconds, giving 1 day, 1 hour, 2 minutes, 3 seconds. -/
theorem countdown_positive_decomposition_witness :
    (1704157323000 : Int) - 1704067200000 = 1000 * (90123 : Nat) ∧
    calculateCountdown 1704157323000 1704067200000 =
      { days := 1, hours := 1, minutes := 2, seconds := 3, overdue := false } := by
  refine ⟨by decide, ?_⟩
  have h := countdown_positive_decomposition 1704157323000 1704067200000 90123
    (by decide) (by decide)
  simpa using h

/-- One token of the compiled search pattern.  The source builds
`new RegExp("(" + searchTerm + ")", "gi")` from the raw query
(src/script.js:416), so regex metacharacters in the query keep their
regex meaning.  The model covers the fragment of regex syntax exercised
by the theorems below: a plain character matches itself
case-insensitively (flag `i`), and the metacharacter `.` matches any
character. -/
inductive PatTok where
  | lit : Char → PatTok
  | anyChar : PatTok
  deriving Repr, DecidableEq

/-- Compile the raw query into pattern tokens (`.` stays a wildcard
because the source does not escape the query). -/
def compilePattern (searchTerm : String) : List PatTok :=
  searchTerm.toList.map fun c => if c = '.' then PatTok.anyChar else PatTok.lit c

def tokMatches : PatTok → Char → Bool
  | PatTok.anyChar, _ => true
  | PatTok.lit l, c => l.toLower == c.toLower

/-- Does the pattern match a prefix of `cs`, one character per token? -/
def matchesHere : List PatTok → List Char → Bool
  | [], _ => true
  | _ :: _, [] => false
  | t :: ts, c :: cs => tokMatches t c && matchesHere ts cs

def markOpen : List Char := "<mark class=\"search-highlight\">".toList

def markClose : List Char := "</mark>".toList

/-- Global replacement pass of
`text.replace(regex, '<mark class="search-highlight">$1</mark>')`
(src/script.js:422): scan left to right; at a match, wrap the matched
characters (`$1`, original case preserved) in the marker and continue
after the match; otherwise copy one character.  Each match consumes
`pat.length ≥ 1` characters (the empty query returns before this pass),
so a fuel of the text length suffices; the fuel only serves structural
termination. -/
def highlightChars (pat : List PatTok) : Nat → List Char → List Char
  | _, [] => []
  | 0, cs => cs
  | fuel + 1, c :: rest =>
    if matchesHere pat (c :: rest) then
      markOpen ++ (c :: rest).take pat.length ++ markClose ++
        highlightChars pat fuel ((c :: rest).drop pat.length)
    else
      c :: highlightChars pat fuel rest

/-- Shallow embedding of `highlightSearchTerm` (src/script.js:412):
returns the text unchanged when the trimmed query is empty, otherwise
performs the global case-insensitive replacement with the unescaped
query as pattern. -/
def highlightSearchTerm (text searchTerm : String) : String :=
  if jsTrim searchTerm = "" then text
  else String.mk (highlightChars (compilePattern searchTerm) text.length text.toList)

/-- Character comparison by code point, modelling JS `<` on strings. -/
def charLtB (a b : Char) : Bool :=
  decide (a.toNat < b.toNat)

/-- Lexicographic comparison of character lists. -/
def listLtB : List Char → List Char → Bool
  | _, [] => false
  | [], _ :: _ => true
  | a :: as, b :: bs => charLtB a b || (a == b && listLtB as bs)

/-- `a > b` on the date-time keys: lexicographic comparison, which on the
fixed-format `YYYY-MM-DDTHH:MM` keys coincides with JS `Date` comparison
(see the module comment). -/
def strGtB (a b : String) : Bool :=
  listLtB b.toList a.toList

/-- Error outcomes of the store operations, as surfaced by the source
through `showNotification(..., 'error')`.  `editLimitReached` is the
distinct edit-limit message of `updateTask`; `notFound` stands for the
silent early `return` on an unknown id. -/
inductive OpError where
  | validationError : String → OpError
  | editLimitReached : OpError
  | notFound : OpError
  deriving Repr, DecidableEq

/-- State after a mutating operation together with its optional error.
The store is carried even on error because `updateTask` in the source
mutates the task before validating. -/
structure OpOutcome where
  store : Store
  error : Option OpError
  deriving Repr, DecidableEq

/-- Replace the first element satisfying `p` by its image under `f`,
modelling the source's pattern of `list.find(...)` followed by in-place
mutation of the found object. -/
def updateFirst (p : α → Bool) (f : α → α) : List α → List α
  | [] => []
  | x :: xs => if p x then f x :: xs else x :: updateFirst p f xs

/-- Shallow embedding of `addBoard` (src/script.js:537).  `generateId()`
and `new Date().toISOString()` are passed in as `newId` / `createdAt`. -/
def addBoard (store : Store) (newId createdAt name : String) : OpOutcome :=
  if jsTrim name = "" then
    ⟨store, some (OpError.validationError "Please enter a board name")⟩
  else if store.boards.any (fun b => jsToLower b.name == jsToLower name) then
    ⟨store, some (OpError.validationError "Board already exists")⟩
  else
    ⟨⟨store.boards ++
        [{ id := newId, name := jsTrim name, createdAt := createdAt, folders := [] }]⟩,
      none⟩

/-- Shallow embedding of `createFolder` (src/script.js:606).  The source
reads `folderNameInput.value.trim()`; `rawName` is the untrimmed input.
The stored name is `folderName.trim()` in the source, which equals
`folderName` because `trim` is idempotent.  An unknown `currentBoardId`
is the silent `if (!board) return;` path, modelled as `notFound`. -/
def createFolder (store : Store) (currentBoardId newId createdAt rawName : String) :
    OpOutcome :=
  let folderName := jsTrim rawName
  if folderName = "" then
    ⟨store, some (OpError.validationError "Please enter a folder name")⟩
  else if currentBoardId = "" then
    ⟨store, some (OpError.validationError "Please select a board to add folder")⟩
  else
    match store.boards.find? (fun b => b.id == currentBoardId) with
    | none => ⟨store, some OpError.notFound⟩
    | some board =>
      if board.folders.any (fun f => jsToLower f.name == jsToLower folderName) then
        ⟨store, some (OpError.validationError "Folder already exists in this board")⟩
      else
        ⟨⟨updateFirst (fun b => b.id == currentBoardId)
            (fun b => { b with folders := b.folders ++
              [{ id := newId, name := folderName, createdAt := createdAt, tasks := [] }] })
            store.boards⟩, none⟩

/-- Shallow embedding of `addTask` (src/script.js:707).  `rawTitle` and
`rawDescription` are the untrimmed form inputs (the source trims both on
reading); the remaining fields are used as read.  The source does not
null-check the `find` results for the board and the folder (it would
throw); that path is modelled as `notFound`. -/
def addTask (store : Store) (currentBoardId currentFolderId newId createdAt : String)
    (rawTitle priority startDate startTime dueDate dueTime rawDescription : String) :
    OpOutcome :=
  let title := jsTrim rawTitle
  let description := jsTrim rawDescription
  if title = "" ∨ startDate = "" ∨ startTime = "" ∨ dueDate = "" ∨ dueTime = "" then
    ⟨store, some (OpError.validationError "Please fill in all required fields")⟩
  else if strGtB (dateTimeKey startDate startTime) (dateTimeKey dueDate dueTime) then
    ⟨store, some (OpError.validationError "Start date/time cannot be after due date/time")⟩
  else if currentBoardId = "" ∨ currentFolderId = "" then
    ⟨store, some (OpError.validationError "Please select a folder to add task")⟩
  else
    match store.boards.find? (fun b => b.id == currentBoardId) with
    | none => ⟨store, some OpError.notFound⟩
    | some board =>
      match board.folders.find? (fun f => f.id == currentFolderId) with
      | none => ⟨store, some OpError.notFound⟩
      | some folder =>
        if folder.tasks.any (fun t => jsToLower t.title == jsToLower title) then
          ⟨store, some (OpError.validationError
            "A task with this name already exists in this folder")⟩
        else
          ⟨⟨updateFirst (fun b => b.id == currentBoardId)
              (fun b => { b with
                folders := updateFirst (fun f => f.id == currentFolderId)
                  (fun f => { f with
                    tasks := f.tasks ++
                      [{ id := newId, title := title, priority := priority,
                         startDate := startDate, startTime := startTime,
                         dueDate := dueDate, dueTime := dueTime,
                         description := description, status := "pending",
                         createdAt := createdAt, editCount := 0, lastEdited := none }] })
                  b.folders })
              store.boards⟩, none⟩

/-- The contents of the edit-task form plus the `new Date().toISOString()`
value read by `updateTask`. -/
structure EditInput where
  title : String
  priority : String
  startDate : String
  startTime : String
  dueDate : String
  dueTime : String
  description : String
  nowIso : String
  deriving Repr, DecidableEq

/-- The field overwrite performed by `updateTask` (src/script.js:856):
title and description are trimmed on reading, `editCount` is incremented
and `lastEdited` set. -/
def applyEdit (t : Task) (e : EditInput) : Task :=
  { t with title := jsTrim e.title, priority := e.priority,
           startDate := e.startDate, startTime := e.startTime,
           dueDate := e.dueDate, dueTime := e.dueTime,
           description := jsTrim e.description,
           editCount := t.editCount + 1, lastEdited := some e.nowIso }

/-- The board/folder/task lookup path of `updateTask`
(src/script.js:842): first board with the id, first folder within it,
first task within that. -/
def lookupTask (store : Store) (boardId folderId taskId : String) : Option Task :=
  match store.boards.find? (fun b => b.id == boardId) with
  | none => none
  | some board =>
    match board.folders.find? (fun f => f.id == folderId) with
    | none => none
    | some folder => folder.tasks.find? (fun t => t.id == taskId)

/-- Replace the first task on the `boardId`/`folderId`/`taskId` path,
modelling the in-place mutation of the object found by `updateTask`. -/
def storeReplaceTask (store : Store) (boardId folderId taskId : String) (t' : Task) :
    Store :=
  ⟨updateFirst (fun b => b.id == boardId)
    (fun b => { b with
      folders := updateFirst (fun f => f.id == folderId)
        (fun f => { f with
          tasks := updateFirst (fun t => t.id == taskId) (fun _ => t') f.tasks })
        b.folders })
    store.boards⟩

/-- Shallow embedding of `updateTask` (src/script.js:834), the commit
half of the edit flow (`window.currentEditTask` provides the ids).  The
source checks the edit limit first, then OVERWRITES the task fields,
increments `editCount` and sets `lastEdited`, and only afterwards
validates required fields and start ≤ due — on a validation failure the
mutation is kept (though not saved), which is why the outcome carries the
store even on error. -/
def updateTask (store : Store) (boardId folderId taskId : String) (e : EditInput) :
    OpOutcome :=
  match lookupTask store boardId folderId taskId with
  | none => ⟨store, some OpError.notFound⟩
  | some task =>
    if task.editCount ≥ 3 then ⟨store, some OpError.editLimitReached⟩
    else
      let task' := applyEdit task e
      let store' := storeReplaceTask store boardId folderId taskId task'
      if task'.title = "" ∨ e.startDate = "" ∨ e.startTime = "" ∨
          e.dueDate = "" ∨ e.dueTime = "" then
        ⟨store', some (OpError.validationError "Please fill in all required fields")⟩
      else if strGtB (dateTimeKey e.startDate e.startTime)
          (dateTimeKey e.dueDate e.dueTime) then
        ⟨store', some (OpError.validationError
          "Start date/time cannot be after due date/time")⟩
      else ⟨store', none⟩

/-- Shallow embedding of `deleteBoard` (src/script.js:570): filter the
board out; an unknown id is a silent no-op (the filter is then the
identity). -/
def deleteBoard (store : Store) (boardId : String) : Store :=
  ⟨store.boards.filter (fun b => !(b.id == boardId))⟩

/-- Shallow embedding of `deleteFolderFromBoard` (src/script.js:658):
filter the folder out of the first board with the id; unknown ids are
silent no-ops. -/
def deleteFolderFromBoard (store : Store) (boardId folderId : String) : Store :=
  ⟨updateFirst (fun b => b.id == boardId)
    (fun b => { b with folders := b.folders.filter (fun f => !(f.id == folderId)) })
    store.boards⟩

/-- Folder-level scan of `deleteTask` (src/script.js:893): the first
folder whose tasks contain the id has that first occurrence spliced out,
and the scan stops. -/
def deleteTaskFolders (taskId : String) : List Folder → Option (List Folder)
  | [] => none
  | f :: fs =>
    if f.tasks.any (fun t => t.id == taskId) then
      some ({ f with tasks := f.tasks.eraseP (fun t => t.id == taskId) } :: fs)
    else
      match deleteTaskFolders taskId fs with
      | some fs' => some (f :: fs')
      | none => none

/-- Board-level scan of `deleteTask`. -/
def deleteTaskBoards (taskId : String) : List Board → List Board
  | [] => []
  | b :: bs =>
    match deleteTaskFolders taskId b.folders with
    | some fs' => { b with folders := fs' } :: bs
    | none => b :: deleteTaskBoards taskId bs

/-- Shallow embedding of `deleteTask` (src/script.js:893). -/
def deleteTask (store : Store) (taskId : String) : Store :=
  ⟨deleteTaskBoards taskId store.boards⟩

/-- Folder-level scan of `changeTaskStatus` (src/script.js:916): in the
first folder containing the task id, set the status of the first task
with that id, then stop. -/
def setStatusFolders (taskId status : String) : List Folder → Option (List Folder)
  | [] => none
  | f :: fs =>
    if f.tasks.any (fun t => t.id == taskId) then
      some ({ f with
        tasks := updateFirst (fun t => t.id == taskId)
          (fun t => { t with status := status }) f.tasks } :: fs)
    else
      match setStatusFolders taskId status fs with
      | some fs' => some (f :: fs')
      | none => none

/-- Board-level scan of `changeTaskStatus`. -/
def setStatusBoards (taskId status : String) : List Board → List Board
  | [] => []
  | b :: bs =>
    match setStatusFolders taskId status b.folders with
    | some fs' => { b with folders := fs' } :: bs
    | none => b :: setStatusBoards taskId status bs

/-- Shallow embedding of `changeTaskStatus` (src/script.js:916); sets the
status unconditionally (no edit-limit check) and does not touch
`editCount`. -/
def changeTaskStatus (store : Store) (taskId status : String) : Store :=
  ⟨setStatusBoards taskId status store.boards⟩

/-- The full-tree task scan used by `editTask`, `changeTaskStatus` and
`deleteTask`: first board, first folder, first task with the id. -/
def findTaskFolders (taskId : String) : List Folder → Option Task
  | [] => none
  | f :: fs =>
    match f.tasks.find? (fun t => t.id == taskId) with
    | some t => some t
    | none => findTaskFolders taskId fs

def findTaskBoards (taskId : String) : List Board → Option Task
  | [] => none
  | b :: bs =>
    match findTaskFolders taskId b.folders with
    | some t => some t
    | none => findTaskBoards taskId bs

def findTaskGlobal (store : Store) (taskId : String) : Option Task :=
  findTaskBoards taskId store.boards

/-- All ids present in a store (boards, folders and tasks), used to state
freshness of a generated id. -/
def storeIds (s : Store) : List String :=
  s.boards.flatMap fun b =>
    b.id :: b.folders.flatMap fun f => f.id :: f.tasks.map fun t => t.id

/-- Number of tasks with the given id in the whole store. -/
def taskOccurrences (s : Store) (taskId : String) : Nat :=
  (s.boards.map fun b =>
    (b.folders.map fun f => f.tasks.countP fun t => t.id == taskId).sum).sum

/-- Case-insensitive title uniqueness among the tasks of a folder. -/
def tasksTitleUnique (f : Folder) : Prop :=
  f.tasks.Pairwise fun a b => jsToLower a.title ≠ jsToLower b.title

/-- Case-insensitive folder-name uniqueness within a board, together with
title uniqueness inside each folder. -/
def boardFoldersUnique (b : Board) : Prop :=
  (b.folders.Pairwise fun a b => jsToLower a.name ≠ jsToLower b.name) ∧
  ∀ f ∈ b.folders, tasksTitleUnique f

/-- The name-uniqueness invariant of the spec: board names unique
case-insensitively at the root, folder names within each board, task
titles within each folder. -/
def storeUnique (s : Store) : Prop :=
  (s.boards.Pairwise fun a b => jsToLower a.name ≠ jsToLower b.name) ∧
  ∀ b ∈ s.boards, boardFoldersUnique b

/-- Every task in the store has `editCount ≤ 3`. -/
def editBounded (s : Store) : Prop :=
  ∀ b ∈ s.boards, ∀ f ∈ b.folders, ∀ t ∈ f.tasks, t.editCount ≤ 3

/-- The edit-form contents pass `updateTask`'s validation: required
fields non-empty after trimming and start not after due. -/
def validEdit (e : EditInput) : Prop :=
  jsTrim e.title ≠ "" ∧ e.startDate ≠ "" ∧ e.startTime ≠ "" ∧
  e.dueDate ≠ "" ∧ e.dueTime ≠ "" ∧
  strGtB (dateTimeKey e.startDate e.startTime) (dateTimeKey e.dueDate e.dueTime) = false

/-- Whether a task matches the query under the scope, per the task branch
of `searchData` (src/script.js:361): title, description (when non-empty),
priority or status contains the term. -/
def taskSearchMatch (term searchType : String) (t : Task) : Bool :=
  (searchType == "all" || searchType == "tasks") &&
    (jsIncludes (jsToLower t.title) term ||
     (!(t.description == "") && jsIncludes (jsToLower t.description) term) ||
     jsIncludes (jsToLower t.priority) term ||
     jsIncludes (jsToLower t.status) term)

/-- Whether a folder matches by name under the scope
(src/script.js:342). -/
def folderNameMatch (term searchType : String) (f : Folder) : Bool :=
  (searchType == "all" || searchType == "folders") && jsIncludes (jsToLower f.name) term

/-- Result of scanning one folder in `searchData`: the filtered folder to
append (if it matched), plus its pushes onto `expandBoards` /
`expandFolders` in source order (one pair per name match, one pair per
matching task). -/
structure FolderScan where
  folder : Option Folder
  expandB : List String
  expandF : List String
  deriving Repr, DecidableEq

/-- One iteration of the folder loop of `searchData`
(src/script.js:337-385).  A name match includes all tasks and pushes one
board/folder id pair; otherwise the matching tasks (`filteredFolder.tasks`
in the source) are collected and each matching task pushes one id pair. -/
def scanFolder (term searchType boardId : String) (f : Folder) : FolderScan :=
  if folderNameMatch term searchType f then
    { folder := some { f with tasks := f.tasks }, expandB := [boardId],
      expandF := [f.id] }
  else if (f.tasks.filter (taskSearchMatch term searchType)).isEmpty then
    { folder := none, expandB := [], expandF := [] }
  else
    { folder := some { f with tasks := f.tasks.filter (taskSearchMatch term searchType) },
      expandB := (f.tasks.filter (taskSearchMatch term searchType)).map fun _ => boardId,
      expandF := (f.tasks.filter (taskSearchMatch term searchType)).map fun _ => f.id }

/-- Result of scanning one board. -/
structure BoardScan where
  board : Option Board
  expandB : List String
  expandF : List String
  deriving Repr, DecidableEq

/-- One iteration of the board loop of `searchData`
(src/script.js:317-391): a name match (scope `all`/`boards`) first copies
the ENTIRE folder list unfiltered, then the folder/task pass appends each
matching filtered folder; the board is emitted if either happened.  The
name match itself pushes nothing onto the expansion sets. -/
def scanBoard (term searchType : String) (b : Board) : BoardScan :=
  let nameMatch := (searchType == "all" || searchType == "boards") &&
    jsIncludes (jsToLower b.name) term
  let initFolders := if nameMatch then b.folders.map (fun f => { f with tasks := f.tasks })
    else []
  let scans := b.folders.map (scanFolder term searchType b.id)
  let passFolders := scans.filterMap fun s => s.folder
  let matched := nameMatch || !passFolders.isEmpty
  { board := if matched then some { b with folders := initFolders ++ passFolders }
      else none,
    expandB := (scans.map fun s => s.expandB).flatten,
    expandF := (scans.map fun s => s.expandF).flatten }

/-- `[...new Set(list)]`: de-duplicate keeping first occurrences. -/
def dedupAux (seen : List String) : List String → List String
  | [] => []
  | x :: xs => if seen.contains x then dedupAux seen xs else x :: dedupAux (x :: seen) xs

def dedupKeepFirst (l : List String) : List String :=
  dedupAux [] l

/-- Output of `searchData`: filtered tree and forced-expansion id sets. -/
structure SearchResult where
  data : Store
  expandBoards : List String
  expandFolders : List String
  deriving Repr, DecidableEq

/-- Shallow embedding of `searchData` (src/script.js:307): empty
trimmed query returns the data unfiltered with empty expansion sets;
otherwise the term is `searchTerm.toLowerCase().trim()` and the board
loop runs. -/
def searchData (store : Store) (searchTerm searchType : String) : SearchResult :=
  if jsTrim searchTerm = "" then
    { data := store, expandBoards := [], expandFolders := [] }
  else
    let term := jsTrim (jsToLower searchTerm)
    let scans := store.boards.map (scanBoard term searchType)
    { data := ⟨scans.filterMap fun s => s.board⟩,
      expandBoards := dedupKeepFirst ((scans.map fun s => s.expandB).flatten),
      expandFolders := dedupKeepFirst ((scans.map fun s => s.expandF).flatten) }

instance (f : Folder) : Decidable (tasksTitleUnique f) := by
  unfold tasksTitleUnique; infer_instance

instance (b : Board) : Decidable (boardFoldersUnique b) := by
  unfold boardFoldersUnique; infer_instance

instance (s : Store) : Decidable (storeUnique s) := by
  unfold storeUnique; infer_instance

instance (s : Store) : Decidable (editBounded s) := by
  unfold editBounded; infer_instance

instance (e : EditInput) : Decidable (validEdit e) := by
  unfold validEdit; infer_instance

theorem charLtB_self (a : Char) : charLtB a a = false := by
  simp [charLtB]

theorem listLtB_self (l : List Char) : listLtB l l = false := by
  induction l with
  | nil => rfl
  | cons a as ih => simp [listLtB, charLtB_self, ih]

theorem strGtB_self (k : String) : strGtB k k = false :=
  listLtB_self k.toList

theorem mem_updateFirst {p : α → Bool} {f : α → α} {l : List α} {y : α}
    (h : y ∈ updateFirst p f l) :
    y ∈ l ∨ ∃ x, l.find? p = some x ∧ y = f x := by
  induction l with
  | nil => simp [updateFirst] at h
  | cons a as ih =>
    by_cases hp : p a
    · simp [updateFirst, hp] at h
      rcases h with h | h
      · exact Or.inr ⟨a, by simp [List.find?_cons, hp], h⟩
      · exact Or.inl (List.mem_cons_of_mem _ h)
    · simp [updateFirst, hp] at h
      rcases h with h | h
      · exact Or.inl (by simp [h])
      · rcases ih h with h' | ⟨x, hx, hy⟩
        · exact Or.inl (List.mem_cons_of_mem _ h')
        · exact Or.inr ⟨x, by simp [List.find?_cons, hp, hx], hy⟩

theorem find?_updateFirst {p : α → Bool} {f : α → α} {l : List α} {x : α}
    (h : l.find? p = some x) (hfx : p (f x) = true) :
    (updateFirst p f l).find? p = some (f x) := by
  induction l with
  | nil => simp at h
  | cons a as ih =>
    by_cases hp : p a
    · simp [List.find?_cons, hp] at h
      subst h
      simp [updateFirst, hp, List.find?_cons, hfx]
    · simp [List.find?_cons, hp] at h
      simp [updateFirst, hp, List.find?_cons, ih h]

theorem mem_updateFirst_of_find? {p : α → Bool} {f : α → α} {l : List α} {x : α}
    (h : l.find? p = some x) : f x ∈ updateFirst p f l := by
  induction l with
  | nil => simp at h
  | cons a as ih =>
    by_cases hp : p a
    · simp [List.find?_cons, hp] at h
      subst h
      simp [updateFirst, hp]
    · simp [List.find?_cons, hp] at h
      simp [updateFirst, hp]
      exact Or.inr (ih h)

theorem pairwise_updateFirst {R : α → α → Prop} {p : α → Bool} {f : α → α}
    {l : List α} (h : l.Pairwise R)
    (h1 : ∀ x y, R x y → R x (f y)) (h2 : ∀ x y, R x y → R (f x) y) :
    (updateFirst p f l).Pairwise R := by
  induction l with
  | nil => exact h
  | cons a as ih =>
    rcases List.pairwise_cons.mp h with ⟨ha, has⟩
    by_cases hp : p a
    · simp only [updateFirst, hp, if_true]
      exact List.pairwise_cons.mpr ⟨fun y hy => h2 a y (ha y hy), has⟩
    · simp only [updateFirst, hp, if_false]
      refine List.pairwise_cons.mpr ⟨fun y hy => ?_, ih has⟩
      rcases mem_updateFirst hy with hmem | ⟨x, hx, hyx⟩
      · exact ha y hmem
      · exact hyx ▸ h1 a x (ha x (List.mem_of_find?_eq_some hx))

theorem mem_dedupAux {seen l : List String} {x : String} :
    x ∈ dedupAux seen l ↔ x ∈ l ∧ x ∉ seen := by
  induction l generalizing seen with
  | nil => simp [dedupAux]
  | cons a as ih =>
    by_cases hs : seen.contains a = true
    · have ha : a ∈ seen := by simpa using hs
      rw [show dedupAux seen (a :: as) = dedupAux seen as from by
        simp only [dedupAux]; rw [if_pos hs], ih]
      constructor
      · rintro ⟨h1, h2⟩
        exact ⟨List.mem_cons_of_mem _ h1, h2⟩
      · rintro ⟨h1, h2⟩
        rcases List.mem_cons.mp h1 with h | h
        · exact absurd (h ▸ ha) h2
        · exact ⟨h, h2⟩
    · have ha : a ∉ seen := by simpa using hs
      rw [show dedupAux seen (a :: as) = a :: dedupAux (a :: seen) as from by
        simp only [dedupAux]; rw [if_neg hs]]
      constructor
      · intro h
        rcases List.mem_cons.mp h with h | h
        · exact ⟨h ▸ List.mem_cons_self _ _, h ▸ ha⟩
        · rcases ih.mp h with ⟨h1, h2⟩
          exact ⟨List.mem_cons_of_mem _ h1,
            fun hx => h2 (List.mem_cons_of_mem _ hx)⟩
      · rintro ⟨h1, h2⟩
        rcases List.mem_cons.mp h1 with h | h
        · exact h ▸ List.mem_cons_self _ _
        · by_cases hxa : x = a
          · exact hxa ▸ List.mem_cons_self _ _
          · refine List.mem_cons_of_mem _ (ih.mpr ⟨h, fun hx => ?_⟩)
            rcases List.mem_cons.mp hx with h' | h'
            · exact hxa h'
            · exact h2 h'

theorem mem_dedupKeepFirst {l : List String} {x : String} :
    x ∈ dedupKeepFirst l ↔ x ∈ l := by
  simp [dedupKeepFirst, mem_dedupAux]

/-- C5: the empty-query and case-insensitive-literal parts of the claim
hold, but the escaping part fails: the source passes the raw query to
`new RegExp`, so the query `"."` acts as the regex wildcard and
`highlightSearchTerm "abc" "."` wraps every character of the text in the
marker instead of leaving the text (which contains no literal `"."`)
unchanged. -/
theorem highlight_unescaped_query_corrupts :
    highlightSearchTerm "abc" "" = "abc" ∧
    highlightSearchTerm "Buy milk" "MILK" =
      "Buy <mark class=\"search-highlight\">milk</mark>" ∧
    highlightSearchTerm "abc" "." =
      "<mark class=\"search-highlight\">a</mark>" ++
        "<mark class=\"search-highlight\">b</mark>" ++
        "<mark class=\"search-highlight\">c</mark>" ∧
    highlightSearchTerm "abc" "." ≠ "abc" := by
  refine ⟨rfl, rfl, rfl, by decide⟩

/-- Demo store: one board, one folder, one fresh task (editCount 0). -/
def demoStore1 : Store :=
  ⟨[{ id := "b1", name := "Work", createdAt := "c", folders :=
      [{ id := "f1", name := "Inbox", createdAt := "c", tasks :=
        [{ id := "t1", title := "Alpha", priority := "low",
           startDate := "2024-01-01", startTime := "09:00",
           dueDate := "2024-01-02", dueTime := "10:00", description := "",
           status := "pending", createdAt := "c", editCount := 0,
           lastEdited := none }] }] }]⟩

/-- Demo store: one folder holding two tasks with distinct titles. -/
def demoStore2 : Store :=
  ⟨[{ id := "b1", name := "Work", createdAt := "c", folders :=
      [{ id := "f1", name := "Inbox", createdAt := "c", tasks :=
        [{ id := "t1", title := "Alpha", priority := "low",
           startDate := "2024-01-01", startTime := "09:00",
           dueDate := "2024-01-02", dueTime := "10:00", description := "",
           status := "pending", createdAt := "c", editCount := 0,
           lastEdited := none },
         { id := "t2", title := "Beta", priority := "low",
           startDate := "2024-01-01", startTime := "09:00",
           dueDate := "2024-01-02", dueTime := "10:00", description := "",
           status := "pending", createdAt := "c", editCount := 0,
           lastEdited := none }] }] }]⟩

/-- Demo store: one task already at the edit limit (editCount 3). -/
def demoStore3 : Store :=
  ⟨[{ id := "b1", name := "Work", createdAt := "c", folders :=
      [{ id := "f1", name := "Inbox", createdAt := "c", tasks :=
        [{ id := "t1", title := "Alpha", priority := "low",
           startDate := "2024-01-01", startTime := "09:00",
           dueDate := "2024-01-02", dueTime := "10:00", description := "",
           status := "pending", createdAt := "c", editCount := 3,
           lastEdited := none }] }] }]⟩

/-- Edit-form contents with an empty (required) title, otherwise valid. -/
def demoEditEmptyTitle : EditInput :=
  { title := "", priority := "low", startDate := "2024-01-01",
    startTime := "09:00", dueDate := "2024-01-02", dueTime := "10:00",
    description := "", nowIso := "2024-06-01" }

/-- Valid edit-form contents renaming a task to "Alpha". -/
def demoEditAlpha : EditInput :=
  { title := "Alpha", priority := "low", startDate := "2024-01-01",
    startTime := "09:00", dueDate := "2024-01-02", dueTime := "10:00",
    description := "", nowIso := "2024-06-01" }

/-- C8: `addBoard` fails with a `ValidationError` and leaves the board
sequence unchanged when the name is empty/whitespace or a case-insensitive
duplicate of an existing board's name; otherwise it appends exactly one
new board — carrying the generated id (whose freshness, documented for
`generateId()` in the source, is the hypothesis that `newId` is unused in
the store) and an empty folder list — at the end of the sequence, leaving
all pre-existing boards and their order unchanged. -/
theorem addBoard_spec (store : Store) (newId createdAt name : String) :
    ((jsTrim name = "" ∨
        store.boards.any (fun b => jsToLower b.name == jsToLower name) = true) →
      ∃ msg, addBoard store newId createdAt name =
        ⟨store, some (OpError.validationError msg)⟩) ∧
    (jsTrim name ≠ "" →
      store.boards.any (fun b => jsToLower b.name == jsToLower name) = false →
      newId ∉ storeIds store →
      addBoard store newId createdAt name =
        ⟨⟨store.boards ++
          [{ id := newId, name := jsTrim name, createdAt := createdAt,
             folders := [] }]⟩, none⟩) := by
  constructor
  · rintro (h | h)
    · exact ⟨"Please enter a board name", by simp [addBoard, h]⟩
    · by_cases h0 : jsTrim name = ""
      · exact ⟨"Please enter a board name", by simp [addBoard, h0]⟩
      · exact ⟨"Board already exists", by simp [addBoard, h0, h]⟩
  · intro h1 h2 _h3
    simp [addBoard, h1, h2]

/-- Witness for `addBoard_spec`: adding "Work" to the empty store appends
it; adding "WORK" to the resulting store fails as a case-insensitive
duplicate and leaves the store unchanged. -/
theorem addBoard_spec_witness :
    addBoard ⟨[]⟩ "id1" "c" "Work" =
      ⟨⟨[{ id := "id1", name := "Work", createdAt := "c", folders := [] }]⟩,
        none⟩ ∧
    ∃ msg,
      addBoard ⟨[{ id := "id1", name := "Work", createdAt := "c", folders := [] }]⟩
          "id2" "c" "WORK" =
        ⟨⟨[{ id := "id1", name := "Work", createdAt := "c", folders := [] }]⟩,
          some (OpError.validationError msg)⟩ := by
  constructor
  · exact (addBoard_spec ⟨[]⟩ "id1" "c" "Work").2 (by decide) (by decide)
      (by decide)
  · exact (addBoard_spec
      ⟨[{ id := "id1", name := "Work", createdAt := "c", folders := [] }]⟩
      "id2" "c" "WORK").1 (Or.inr (by decide))

/-- C7: `addTask` fails with a `ValidationError` when the combined start
date-time is strictly after the combined due date-time, succeeds when
start equals due (all other validations passing), and every successfully
created task has `status = "pending"`, `editCount = 0` and
`lastEdited = null`. -/
theorem addTask_spec (store : Store) (bId fId newId createdAt : String)
    (rawTitle priority sd st dd dt rawDesc : String) :
    (jsTrim rawTitle ≠ "" → sd ≠ "" → st ≠ "" → dd ≠ "" → dt ≠ "" →
      strGtB (dateTimeKey sd st) (dateTimeKey dd dt) = true →
      addTask store bId fId newId createdAt rawTitle priority sd st dd dt rawDesc =
        ⟨store, some (OpError.validationError
          "Start date/time cannot be after due date/time")⟩) ∧
    (∀ board folder,
      jsTrim rawTitle ≠ "" → sd ≠ "" → st ≠ "" → dd ≠ "" → dt ≠ "" →
      dateTimeKey sd st = dateTimeKey dd dt → bId ≠ "" → fId ≠ "" →
      store.boards.find? (fun b => b.id == bId) = some board →
      board.folders.find? (fun f => f.id == fId) = some folder →
      folder.tasks.any
        (fun t => jsToLower t.title == jsToLower (jsTrim rawTitle)) = false →
      (addTask store bId fId newId createdAt rawTitle priority
        sd st dd dt rawDesc).error = none) ∧
    (∀ s', addTask store bId fId newId createdAt rawTitle priority
        sd st dd dt rawDesc = ⟨s', none⟩ →
      ∃ b' ∈ s'.boards, ∃ f' ∈ b'.folders, ∃ t ∈ f'.tasks,
        t.id = newId ∧ t.status = "pending" ∧ t.editCount = 0 ∧
        t.lastEdited = none) := by
  refine ⟨?_, ?_, ?_⟩
  · intro h1 h2 h3 h4 h5 h6
    simp [addTask, h1, h2, h3, h4, h5, h6]
  · intro board folder h1 h2 h3 h4 h5 hkey hb hf hfindB hfindF hdup
    have hg : strGtB (dateTimeKey sd st) (dateTimeKey dd dt) = false := by
      rw [hkey]; exact strGtB_self _
    simp [addTask, h1, h2, h3, h4, h5, hb, hf, hfindB, hfindF, hdup, hg]
  · intro s' h
    by_cases c1 : jsTrim rawTitle = "" ∨ sd = "" ∨ st = "" ∨ dd = "" ∨ dt = ""
    · simp [addTask, c1] at h
    · by_cases c2 : strGtB (dateTimeKey sd st) (dateTimeKey dd dt) = true
      · simp [addTask, c1, c2] at h
      · by_cases c3 : bId = "" ∨ fId = ""
        · simp [addTask, c1, c2, c3] at h
        · cases hfindB : store.boards.find? (fun b => b.id == bId) with
          | none => simp [addTask, c1, c2, c3, hfindB] at h
          | some board =>
            cases hfindF : board.folders.find? (fun f => f.id == fId) with
            | none => simp [addTask, c1, c2, c3, hfindB, hfindF] at h
            | some folder =>
              by_cases c4 : folder.tasks.any
                  (fun t => jsToLower t.title == jsToLower (jsTrim rawTitle)) = true
              · simp [addTask, c1, c2, c3, hfindB, hfindF, c4] at h
              · simp only [addTask, c1, c2, c3, c4, hfindB, hfindF,
                  Bool.false_eq_true, if_false, OpOutcome.mk.injEq,
                  and_true] at h
                subst h
                refine ⟨_, mem_updateFirst_of_find? hfindB,
                  _, mem_updateFirst_of_find? hfindF,
                  _, List.mem_append_right _ (List.mem_singleton_self _),
                  rfl, rfl, rfl, rfl⟩

/-- Witness for `addTask_spec`: on `demoStore1`, a start strictly after
the due fails with the start-after-due `ValidationError`, and a task with
equal start and due is created with `status = "pending"`,
`editCount = 0`, `lastEdited = none`. -/
theorem addTask_spec_witness :
    addTask demoStore1 "b1" "f1" "t9" "c" "Gamma" "low"
        "2024-01-02" "10:00" "2024-01-01" "10:00" "" =
      ⟨demoStore1, some (OpError.validationError
        "Start date/time cannot be after due date/time")⟩ ∧
    (addTask demoStore1 "b1" "f1" "t9" "c" "Gamma" "low"
        "2024-01-01" "10:00" "2024-01-01" "10:00" "").error = none := by
  constructor
  · exact (addTask_spec demoStore1 "b1" "f1" "t9" "c" "Gamma" "low"
      "2024-01-02" "10:00" "2024-01-01" "10:00" "").1
      (by decide) (by decide) (by decide) (by decide) (by decide) (by decide)
  · exact (addTask_spec demoStore1 "b1" "f1" "t9" "c" "Gamma" "low"
      "2024-01-01" "10:00" "2024-01-01" "10:00" "").2.1
      ({ id := "b1", name := "Work", createdAt := "c", folders :=
          [{ id := "f1", name := "Inbox", createdAt := "c", tasks :=
            [{ id := "t1", title := "Alpha", priority := "low",
               startDate := "2024-01-01", startTime := "09:00",
               dueDate := "2024-01-02", dueTime := "10:00", description := "",
               status := "pending", createdAt := "c", editCount := 0,
               lastEdited := none }] }] })
      ({ id := "f1", name := "Inbox", createdAt := "c", tasks :=
          [{ id := "t1", title := "Alpha", priority := "low",
             startDate := "2024-01-01", startTime := "09:00",
             dueDate := "2024-01-02", dueTime := "10:00", description := "",
             status := "pending", createdAt := "c", editCount := 0,
             lastEdited := none }] })
      (by decide) (by decide) (by decide) (by decide) (by decide) rfl
      (by decide) (by decide) (by decide) (by decide) (by decide)

/-- C2 (code bug): `updateTask` checks the edit limit first, but performs
the field overwrite BEFORE validating, so a call that fails validation
(here: empty required title) reports the error yet leaves the task
mutated — title overwritten to `""`, `editCount` incremented, `lastEdited`
set.  The `EditLimitReached` path does leave the store unchanged (last
conjunct), but the claim fails for validation failures. -/
theorem updateTask_mutates_on_validation_failure :
    (updateTask demoStore1 "b1" "f1" "t1" demoEditEmptyTitle).error =
      some (OpError.validationError "Please fill in all required fields") ∧
    (updateTask demoStore1 "b1" "f1" "t1" demoEditEmptyTitle).store ≠
      demoStore1 ∧
    lookupTask (updateTask demoStore1 "b1" "f1" "t1" demoEditEmptyTitle).store
        "b1" "f1" "t1" =
      some { id := "t1", title := "", priority := "low",
             startDate := "2024-01-01", startTime := "09:00",
             dueDate := "2024-01-02", dueTime := "10:00", description := "",
             status := "pending", createdAt := "c", editCount := 1,
             lastEdited := some "2024-06-01" } ∧
    updateTask demoStore3 "b1" "f1" "t1" demoEditAlpha =
      ⟨demoStore3, some OpError.editLimitReached⟩ := by
  refine ⟨rfl, by decide, rfl, rfl⟩

/-- C3 (counterexample): the uniqueness invariant does not survive
`editTask`: `updateTask` performs no title-uniqueness check, so renaming
"Beta" to "Alpha" succeeds and leaves two tasks titled "Alpha" in the
same folder. -/
theorem uniqueness_broken_by_updateTask :
    storeUnique demoStore2 ∧
    (updateTask demoStore2 "b1" "f1" "t2" demoEditAlpha).error = none ∧
    ¬ storeUnique (updateTask demoStore2 "b1" "f1" "t2" demoEditAlpha).store := by
  refine ⟨by decide, rfl, by decide⟩

theorem pairwise_of_map_eq {α : Type} {g : α → String} {S : String → String → Prop}
    {l l' : List α} (h : l'.map g = l.map g)
    (hp : l.Pairwise fun a b => S (g a) (g b)) :
    l'.Pairwise fun a b => S (g a) (g b) := by
  rw [← List.pairwise_map] at hp ⊢
  rw [h]
  exact hp

theorem pairwise_name_of_map_eq {α : Type} {g : α → String} {l l' : List α}
    (h : l'.map g = l.map g)
    (hp : l.Pairwise fun a b => jsToLower (g a) ≠ jsToLower (g b)) :
    l'.Pairwise fun a b => jsToLower (g a) ≠ jsToLower (g b) := by
  have h2 : l'.map (fun x => jsToLower (g x)) = l.map (fun x => jsToLower (g x)) := by
    have := congrArg (List.map jsToLower) h
    simpa [List.map_map, Function.comp] using this
  exact pairwise_of_map_eq h2 hp

theorem forall_ne_of_any_beq_false {α : Type} {g : α → String} {s : String}
    {l : List α} (h : l.any (fun x => g x == s) = false) :
    ∀ x ∈ l, g x ≠ s := by
  intro x hx
  have h' := List.any_eq_false.mp h x hx
  simpa using h'

theorem deleteTaskFolders_shape {tid : String} {fs fs' : List Folder}
    (h : deleteTaskFolders tid fs = some fs') :
    fs'.map (fun f => f.name) = fs.map (fun f => f.name) ∧
    ∀ f' ∈ fs', f' ∈ fs ∨ ∃ f ∈ fs, f' =
      { f with tasks := f.tasks.eraseP (fun t => t.id == tid) } := by
  induction fs generalizing fs' with
  | nil => simp [deleteTaskFolders] at h
  | cons a as ih =>
    simp only [deleteTaskFolders] at h
    by_cases ha : a.tasks.any (fun t => t.id == tid) = true
    · rw [if_pos ha] at h
      injection h with h
      subst h
      refine ⟨rfl, ?_⟩
      intro f' hf'
      rcases List.mem_cons.mp hf' with hf' | hf'
      · exact Or.inr ⟨a, List.mem_cons_self _ _, hf'⟩
      · exact Or.inl (List.mem_cons_of_mem _ hf')
    · rw [if_neg ha] at h
      cases hrec : deleteTaskFolders tid as with
      | none => rw [hrec] at h; exact absurd h (by simp)
      | some as' =>
        rw [hrec] at h
        injection h with h
        subst h
        obtain ⟨hmap, hmem⟩ := ih hrec
        refine ⟨by simpa using hmap, ?_⟩
        intro f' hf'
        rcases List.mem_cons.mp hf' with hf' | hf'
        · exact Or.inl (hf' ▸ List.mem_cons_self _ _)
        · rcases hmem f' hf' with hm | ⟨f, hf, heq⟩
          · exact Or.inl (List.mem_cons_of_mem _ hm)
          · exact Or.inr ⟨f, List.mem_cons_of_mem _ hf, heq⟩

theorem deleteTaskBoards_shape (tid : String) (bs : List Board) :
    (deleteTaskBoards tid bs).map (fun b => b.name) = bs.map (fun b => b.name) ∧
    ∀ b' ∈ deleteTaskBoards tid bs, b' ∈ bs ∨ ∃ b ∈ bs, ∃ fs',
      deleteTaskFolders tid b.folders = some fs' ∧
      b' = { b with folders := fs' } := by
  induction bs with
  | nil => exact ⟨rfl, by simp [deleteTaskBoards]⟩
  | cons a as ih =>
    simp only [deleteTaskBoards]
    cases hdf : deleteTaskFolders tid a.folders with
    | some fs' =>
      refine ⟨rfl, ?_⟩
      intro b' hb'
      rcases List.mem_cons.mp hb' with hb' | hb'
      · exact Or.inr ⟨a, List.mem_cons_self _ _, fs', hdf, hb'⟩
      · exact Or.inl (List.mem_cons_of_mem _ hb')
    | none =>
      obtain ⟨hmap, hmem⟩ := ih
      refine ⟨by simpa using hmap, ?_⟩
      intro b' hb'
      rcases List.mem_cons.mp hb' with hb' | hb'
      · exact Or.inl (hb' ▸ List.mem_cons_self _ _)
      · rcases hmem b' hb' with hm | ⟨b, hb, fs', hdf', heq⟩
        · exact Or.inl (List.mem_cons_of_mem _ hm)
        · exact Or.inr ⟨b, List.mem_cons_of_mem _ hb, fs', hdf', heq⟩

theorem storeUnique_addBoard (store : Store) (newId createdAt name : String)
    (hname : jsTrim name = name) (h : storeUnique store) :
    storeUnique (addBoard store newId createdAt name).store := by
  unfold addBoard
  by_cases h0 : jsTrim name = ""
  · rw [if_pos h0]; exact h
  · rw [if_neg h0]
    by_cases h1 : store.boards.any (fun b => jsToLower b.name == jsToLower name) = true
    · rw [if_pos h1]; exact h
    · rw [if_neg h1]
      have h1' : store.boards.any
          (fun b => jsToLower b.name == jsToLower name) = false := by
        simpa using h1
      have hall : ∀ b ∈ store.boards, jsToLower b.name ≠ jsToLower name := by
        intro b hb
        have := List.any_eq_false.mp h1' b hb
        simpa using this
      constructor
      · rw [List.pairwise_append]
        refine ⟨h.1, List.pairwise_singleton _ _, ?_⟩
        intro a ha b hb
        rw [List.mem_singleton] at hb
        subst hb
        simpa [hname] using hall a ha
      · intro b hb
        rcases List.mem_append.mp hb with hb | hb
        · exact h.2 b hb
        · rw [List.mem_singleton] at hb
          subst hb
          exact ⟨List.Pairwise.nil, by simp⟩

theorem storeUnique_createFolder (store : Store)
    (bId newId createdAt rawName : String) (h : storeUnique store) :
    storeUnique (createFolder store bId newId createdAt rawName).store := by
  simp only [createFolder]
  by_cases h0 : jsTrim rawName = ""
  · rw [if_pos h0]; exact h
  · rw [if_neg h0]
    by_cases hb0 : bId = ""
    · rw [if_pos hb0]; exact h
    · rw [if_neg hb0]
      split
      · exact h
      · rename_i board hfind
        by_cases hdup : board.folders.any
            (fun f => jsToLower f.name == jsToLower (jsTrim rawName)) = true
        · rw [if_pos hdup]; exact h
        · rw [if_neg hdup]
          have hdup' : board.folders.any
              (fun f => jsToLower f.name == jsToLower (jsTrim rawName)) = false := by
            simpa using hdup
          have hdups : ∀ f ∈ board.folders,
              jsToLower f.name ≠ jsToLower (jsTrim rawName) := by
            intro f hf
            have := List.any_eq_false.mp hdup' f hf
            simpa using this
          constructor
          · exact pairwise_updateFirst h.1 (fun x y hxy => hxy) (fun x y hxy => hxy)
          · intro b' hb'
            rcases mem_updateFirst hb' with hmem | ⟨x, hx, hb'eq⟩
            · exact h.2 b' hmem
            · rw [hfind] at hx
              injection hx with hx
              subst hx
              subst hb'eq
              have hbu := h.2 board (List.mem_of_find?_eq_some hfind)
              constructor
              · rw [List.pairwise_append]
                refine ⟨hbu.1, List.pairwise_singleton _ _, ?_⟩
                intro f hf g hg
                rw [List.mem_singleton] at hg
                subst hg
                exact hdups f hf
              · intro f hf
                rcases List.mem_append.mp hf with hf | hf
                · exact hbu.2 f hf
                · rw [List.mem_singleton] at hf
                  subst hf
                  exact List.Pairwise.nil

theorem storeUnique_addTask (store : Store)
    (bId fId newId createdAt rawTitle priority sd st dd dt rawDesc : String)
    (h : storeUnique store) :
    storeUnique (addTask store bId fId newId createdAt rawTitle priority
      sd st dd dt rawDesc).store := by
  simp only [addTask]
  by_cases c1 : jsTrim rawTitle = "" ∨ sd = "" ∨ st = "" ∨ dd = "" ∨ dt = ""
  · rw [if_pos c1]; exact h
  · rw [if_neg c1]
    by_cases c2 : strGtB (dateTimeKey sd st) (dateTimeKey dd dt) = true
    · rw [if_pos c2]; exact h
    · rw [if_neg c2]
      by_cases c3 : bId = "" ∨ fId = ""
      · rw [if_pos c3]; exact h
      · rw [if_neg c3]
        split
        · exact h
        · rename_i board hfindB
          split
          · exact h
          · rename_i folder hfindF
            by_cases c4 : folder.tasks.any
                (fun t => jsToLower t.title == jsToLower (jsTrim rawTitle)) = true
            · rw [if_pos c4]; exact h
            · rw [if_neg c4]
              have c4' : folder.tasks.any
                  (fun t => jsToLower t.title == jsToLower (jsTrim rawTitle)) =
                    false := by simpa using c4
              have hdups : ∀ t ∈ folder.tasks,
                  jsToLower t.title ≠ jsToLower (jsTrim rawTitle) := by
                intro t ht
                have := List.any_eq_false.mp c4' t ht
                simpa using this
              constructor
              · exact pairwise_updateFirst h.1 (fun x y hxy => hxy)
                  (fun x y hxy => hxy)
              · intro b' hb'
                rcases mem_updateFirst hb' with hmem | ⟨x, hx, hb'eq⟩
                · exact h.2 b' hmem
                · rw [hfindB] at hx
                  injection hx with hx
                  subst hx
                  subst hb'eq
                  have hbu := h.2 board (List.mem_of_find?_eq_some hfindB)
                  constructor
                  · exact pairwise_updateFirst hbu.1 (fun x y hxy => hxy)
                      (fun x y hxy => hxy)
                  · intro f' hf'
                    rcases mem_updateFirst hf' with hfmem | ⟨y, hy, hf'eq⟩
                    · exact hbu.2 f' hfmem
                    · rw [hfindF] at hy
                      injection hy with hy
                      subst hy
                      subst hf'eq
                      have hfu := hbu.2 folder (List.mem_of_find?_eq_some hfindF)
                      unfold tasksTitleUnique
                      rw [List.pairwise_append]
                      refine ⟨hfu, List.pairwise_singleton _ _, ?_⟩
                      intro t ht u hu
                      rw [List.mem_singleton] at hu
                      subst hu
                      exact hdups t ht

theorem storeUnique_deleteBoard (store : Store) (bId : String)
    (h : storeUnique store) : storeUnique (deleteBoard store bId) := by
  constructor
  · exact h.1.sublist (List.filter_sublist _)
  · intro b hb
    exact h.2 b (List.mem_of_mem_filter hb)

theorem storeUnique_deleteFolder (store : Store) (bId fId : String)
    (h : storeUnique store) :
    storeUnique (deleteFolderFromBoard store bId fId) := by
  constructor
  · exact pairwise_updateFirst h.1 (fun x y hxy => hxy) (fun x y hxy => hxy)
  · intro b' hb'
    rcases mem_updateFirst hb' with hmem | ⟨x, hx, hb'eq⟩
    · exact h.2 b' hmem
    · subst hb'eq
      have hxu := h.2 x (List.mem_of_find?_eq_some hx)
      constructor
      · exact hxu.1.sublist (List.filter_sublist _)
      · intro f hf
        exact hxu.2 f (List.mem_of_mem_filter hf)

theorem storeUnique_deleteTask (store : Store) (tId : String)
    (h : storeUnique store) : storeUnique (deleteTask store tId) := by
  obtain ⟨hmap, hmem⟩ := deleteTaskBoards_shape tId store.boards
  constructor
  · exact pairwise_name_of_map_eq hmap h.1
  · intro b' hb'
    rcases hmem b' hb' with hm | ⟨b, hb, fs', hdf, heq⟩
    · exact h.2 b' hm
    · subst heq
      obtain ⟨hfmap, hfmem⟩ := deleteTaskFolders_shape hdf
      have hbu := h.2 b hb
      constructor
      · exact pairwise_name_of_map_eq hfmap hbu.1
      · intro f' hf'
        rcases hfmem f' hf' with hm | ⟨f, hf, heq'⟩
        · exact hbu.2 f' hm
        · subst heq'
          exact (hbu.2 f hf).sublist (List.eraseP_sublist _)

/-- C3 (amended): starting from a store satisfying the name-uniqueness
invariant (boards case-insensitively at the root, folder names within
each board, task titles within each folder), the invariant is preserved
by `createFolder`, `addTask`, `deleteBoard`, `deleteFolderFromBoard` and
`deleteTask` unconditionally, and by `addBoard` whenever the supplied
name is already trimmed.  (`editTask` is excluded — see the
counterexample — and `addBoard` with an untrimmed name can also slip a
duplicate through, because its duplicate check compares the untrimmed
input while the trimmed name is stored.) -/
theorem uniqueness_preserved_by_other_ops (store : Store) (h : storeUnique store) :
    (∀ newId createdAt name, jsTrim name = name →
      storeUnique (addBoard store newId createdAt name).store) ∧
    (∀ bId newId createdAt rawName,
      storeUnique (createFolder store bId newId createdAt rawName).store) ∧
    (∀ bId fId newId createdAt rawTitle priority sd st dd dt rawDesc,
      storeUnique (addTask store bId fId newId createdAt rawTitle priority
        sd st dd dt rawDesc).store) ∧
    (∀ bId, storeUnique (deleteBoard store bId)) ∧
    (∀ bId fId, storeUnique (deleteFolderFromBoard store bId fId)) ∧
    (∀ tId, storeUnique (deleteTask store tId)) :=
  ⟨fun newId createdAt name hname =>
      storeUnique_addBoard store newId createdAt name hname h,
    fun bId newId createdAt rawName =>
      storeUnique_createFolder store bId newId createdAt rawName h,
    fun bId fId newId createdAt rawTitle priority sd st dd dt rawDesc =>
      storeUnique_addTask store bId fId newId createdAt rawTitle priority
        sd st dd dt rawDesc h,
    fun bId => storeUnique_deleteBoard store bId h,
    fun bId fId => storeUnique_deleteFolder store bId fId h,
    fun tId => storeUnique_deleteTask store tId h⟩

/-- Witness for `uniqueness_preserved_by_other_ops` on `demoStore2`. -/
theorem uniqueness_preserved_witness :
    storeUnique (addBoard demoStore2 "nb" "c" "Personal").store ∧
    storeUnique (deleteTask demoStore2 "t1") := by
  have h := uniqueness_preserved_by_other_ops demoStore2 (by decide)
  exact ⟨h.1 "nb" "c" "Personal" (by decide), h.2.2.2.2.2 "t1"⟩

theorem find?_updateFirst_expl {α : Type} {p : α → Bool} (f : α → α)
    {l : List α} {x : α} (h : l.find? p = some x) (hfx : p (f x) = true) :
    (updateFirst p f l).find? p = some (f x) :=
  find?_updateFirst h hfx

theorem lookupTask_storeReplaceTask {store : Store} {bId fId tId : String}
    {task t' : Task}
    (hfind : lookupTask store bId fId tId = some task) (hid : t'.id = task.id) :
    lookupTask (storeReplaceTask store bId fId tId t') bId fId tId = some t' := by
  unfold lookupTask at hfind
  cases hfb : store.boards.find? (fun b => b.id == bId) with
  | none => simp [hfb] at hfind
  | some board =>
    simp only [hfb] at hfind
    cases hff : board.folders.find? (fun f => f.id == fId) with
    | none => simp [hff] at hfind
    | some folder =>
      simp only [hff] at hfind
      have hpB := List.find?_some hfb
      have hpF := List.find?_some hff
      have hpT := List.find?_some hfind
      have h1 := find?_updateFirst_expl
        (fun b => { b with
          folders := updateFirst (fun f => f.id == fId)
            (fun f => { f with
              tasks := updateFirst (fun t => t.id == tId) (fun _ => t') f.tasks })
            b.folders }) hfb hpB
      have h2 := find?_updateFirst_expl
        (fun f => { f with
          tasks := updateFirst (fun t => t.id == tId) (fun _ => t') f.tasks })
        hff hpF
      have h3 := find?_updateFirst_expl (fun _ => t') hfind
        (show (t'.id == tId) = true from by rw [hid]; exact hpT)
      simp only [lookupTask, storeReplaceTask, h1, h2, h3]

theorem updateTask_step {store : Store} {bId fId tId : String} {task : Task}
    {e : EditInput}
    (hfind : lookupTask store bId fId tId = some task)
    (hlt : task.editCount < 3) (he : validEdit e) :
    updateTask store bId fId tId e =
      ⟨storeReplaceTask store bId fId tId (applyEdit task e), none⟩ ∧
    lookupTask (updateTask store bId fId tId e).store bId fId tId =
      some (applyEdit task e) := by
  obtain ⟨h1, h2, h3, h4, h5, h6⟩ := he
  have hnot : ¬ task.editCount ≥ 3 := by omega
  have heq : updateTask store bId fId tId e =
      ⟨storeReplaceTask store bId fId tId (applyEdit task e), none⟩ := by
    simp only [updateTask, hfind]
    rw [if_neg hnot, if_neg (by simp [applyEdit, h1, h2, h3, h4, h5]),
      if_neg (by simp [h6])]
  refine ⟨heq, ?_⟩
  rw [heq]
  exact lookupTask_storeReplaceTask hfind rfl

theorem updateTask_limit {store : Store} {bId fId tId : String} {task : Task}
    (e : EditInput) (hfind : lookupTask store bId fId tId = some task)
    (h3 : task.editCount ≥ 3) :
    updateTask store bId fId tId e = ⟨store, some OpError.editLimitReached⟩ := by
  simp only [updateTask, hfind]
  rw [if_pos h3]

theorem any_eq_true_of_find?_some {α : Type} {p : α → Bool} {l : List α} {a : α}
    (h : l.find? p = some a) : l.any p = true := by
  rw [List.any_eq_true]
  exact ⟨a, List.mem_of_find?_eq_some h, List.find?_some h⟩

theorem any_eq_false_of_find?_none {α : Type} {p : α → Bool} {l : List α}
    (h : l.find? p = none) : l.any p = false := by
  rw [List.any_eq_false]
  intro x hx
  have := List.find?_eq_none.mp h x hx
  simpa using this

theorem editBounded_addBoard (s : Store) (newId createdAt name : String)
    (h : editBounded s) : editBounded (addBoard s newId createdAt name).store := by
  unfold addBoard
  by_cases h0 : jsTrim name = ""
  · rw [if_pos h0]; exact h
  · rw [if_neg h0]
    by_cases h1 : s.boards.any (fun b => jsToLower b.name == jsToLower name) = true
    · rw [if_pos h1]; exact h
    · rw [if_neg h1]
      intro b hb f hf u hu
      rcases List.mem_append.mp hb with hb | hb
      · exact h b hb f hf u hu
      · rw [List.mem_singleton] at hb
        subst hb
        simp at hf

theorem editBounded_createFolder (s : Store) (bId newId createdAt rawName : String)
    (h : editBounded s) :
    editBounded (createFolder s bId newId createdAt rawName).store := by
  simp only [createFolder]
  by_cases h0 : jsTrim rawName = ""
  · rw [if_pos h0]; exact h
  · rw [if_neg h0]
    by_cases hb0 : bId = ""
    · rw [if_pos hb0]; exact h
    · rw [if_neg hb0]
      split
      · exact h
      · rename_i board hfind
        by_cases hdup : board.folders.any
            (fun f => jsToLower f.name == jsToLower (jsTrim rawName)) = true
        · rw [if_pos hdup]; exact h
        · rw [if_neg hdup]
          intro b' hb' f' hf' u hu
          rcases mem_updateFirst hb' with hmem | ⟨x, hx, rfl⟩
          · exact h b' hmem f' hf' u hu
          · rcases List.mem_append.mp hf' with hf' | hf'
            · exact h x (List.mem_of_find?_eq_some hx) f' hf' u hu
            · rw [List.mem_singleton] at hf'
              subst hf'
              simp at hu

theorem editBounded_addTask (s : Store)
    (bId fId newId createdAt rawTitle priority sd st dd dt rawDesc : String)
    (h : editBounded s) :
    editBounded (addTask s bId fId newId createdAt rawTitle priority
      sd st dd dt rawDesc).store := by
  simp only [addTask]
  by_cases c1 : jsTrim rawTitle = "" ∨ sd = "" ∨ st = "" ∨ dd = "" ∨ dt = ""
  · rw [if_pos c1]; exact h
  · rw [if_neg c1]
    by_cases c2 : strGtB (dateTimeKey sd st) (dateTimeKey dd dt) = true
    · rw [if_pos c2]; exact h
    · rw [if_neg c2]
      by_cases c3 : bId = "" ∨ fId = ""
      · rw [if_pos c3]; exact h
      · rw [if_neg c3]
        split
        · exact h
        · rename_i board hfindB
          split
          · exact h
          · rename_i folder hfindF
            by_cases c4 : folder.tasks.any
                (fun t => jsToLower t.title == jsToLower (jsTrim rawTitle)) = true
            · rw [if_pos c4]; exact h
            · rw [if_neg c4]
              intro b' hb' f' hf' u hu
              rcases mem_updateFirst hb' with hmem | ⟨x, hx, rfl⟩
              · exact h b' hmem f' hf' u hu
              · rcases mem_updateFirst hf' with hfmem | ⟨y, hy, rfl⟩
                · exact h x (List.mem_of_find?_eq_some hx) f' hfmem u hu
                · rcases List.mem_append.mp hu with hu | hu
                  · exact h x (List.mem_of_find?_eq_some hx) y
                      (List.mem_of_find?_eq_some hy) u hu
                  · rw [List.mem_singleton] at hu
                    subst hu
                    show (0 : Nat) ≤ 3
                    omega

theorem editBounded_updateTask (s : Store) (bId fId tId : String) (e : EditInput)
    (h : editBounded s) : editBounded (updateTask s bId fId tId e).store := by
  simp only [updateTask]
  split
  · exact h
  · rename_i task hfind
    split
    · exact h
    · rename_i hge
      have hlt : task.editCount < 3 := by omega
      have hb : editBounded (storeReplaceTask s bId fId tId (applyEdit task e)) := by
        intro b' hb' f' hf' u hu
        rcases mem_updateFirst hb' with hmem | ⟨x, hx, rfl⟩
        · exact h b' hmem f' hf' u hu
        · rcases mem_updateFirst hf' with hfmem | ⟨y, hy, rfl⟩
          · exact h x (List.mem_of_find?_eq_some hx) f' hfmem u hu
          · rcases mem_updateFirst hu with htmem | ⟨z, hz, rfl⟩
            · exact h x (List.mem_of_find?_eq_some hx) y
                (List.mem_of_find?_eq_some hy) u htmem
            · show task.editCount + 1 ≤ 3
              omega
      split
      · exact hb
      · split
        · exact hb
        · exact hb

theorem editBounded_deleteBoard (s : Store) (bId : String)
    (h : editBounded s) : editBounded (deleteBoard s bId) := by
  intro b hb
  exact h b (List.mem_of_mem_filter hb)

theorem editBounded_deleteFolder (s : Store) (bId fId : String)
    (h : editBounded s) : editBounded (deleteFolderFromBoard s bId fId) := by
  intro b' hb' f' hf' u hu
  rcases mem_updateFirst hb' with hmem | ⟨x, hx, rfl⟩
  · exact h b' hmem f' hf' u hu
  · exact h x (List.mem_of_find?_eq_some hx) f' (List.mem_of_mem_filter hf') u hu

theorem editBounded_deleteTask (s : Store) (tId : String)
    (h : editBounded s) : editBounded (deleteTask s tId) := by
  intro b' hb' f' hf' u hu
  rcases (deleteTaskBoards_shape tId s.boards).2 b' hb' with hm | ⟨b, hb, fs', hdf, rfl⟩
  · exact h b' hm f' hf' u hu
  · rcases (deleteTaskFolders_shape hdf).2 f' hf' with hm | ⟨f, hf, rfl⟩
    · exact h b hb f' hm u hu
    · exact h b hb f hf u (List.mem_of_mem_eraseP hu)

theorem setStatusFolders_shape {tid status : String} {fs fs' : List Folder}
    (h : setStatusFolders tid status fs = some fs') :
    ∀ f' ∈ fs', f' ∈ fs ∨ ∃ f ∈ fs, f' = { f with
      tasks := updateFirst (fun t => t.id == tid)
        (fun t => { t with status := status }) f.tasks } := by
  induction fs generalizing fs' with
  | nil => simp [setStatusFolders] at h
  | cons a as ih =>
    simp only [setStatusFolders] at h
    by_cases ha : a.tasks.any (fun t => t.id == tid) = true
    · rw [if_pos ha] at h
      injection h with h
      subst h
      intro f' hf'
      rcases List.mem_cons.mp hf' with hf' | hf'
      · exact Or.inr ⟨a, List.mem_cons_self _ _, hf'⟩
      · exact Or.inl (List.mem_cons_of_mem _ hf')
    · rw [if_neg ha] at h
      cases hrec : setStatusFolders tid status as with
      | none => rw [hrec] at h; exact absurd h (by simp)
      | some as' =>
        rw [hrec] at h
        injection h with h
        subst h
        intro f' hf'
        rcases List.mem_cons.mp hf' with hf' | hf'
        · exact Or.inl (hf' ▸ List.mem_cons_self _ _)
        · rcases ih hrec f' hf' with hm | ⟨f, hf, heq⟩
          · exact Or.inl (List.mem_cons_of_mem _ hm)
          · exact Or.inr ⟨f, List.mem_cons_of_mem _ hf, heq⟩

theorem setStatusBoards_shape (tid status : String) (bs : List Board) :
    ∀ b' ∈ setStatusBoards tid status bs, b' ∈ bs ∨ ∃ b ∈ bs, ∃ fs',
      setStatusFolders tid status b.folders = some fs' ∧
      b' = { b with folders := fs' } := by
  induction bs with
  | nil => simp [setStatusBoards]
  | cons a as ih =>
    simp only [setStatusBoards]
    cases hdf : setStatusFolders tid status a.folders with
    | some fs' =>
      intro b' hb'
      rcases List.mem_cons.mp hb' with hb' | hb'
      · exact Or.inr ⟨a, List.mem_cons_self _ _, fs', hdf, hb'⟩
      · exact Or.inl (List.mem_cons_of_mem _ hb')
    | none =>
      intro b' hb'
      rcases List.mem_cons.mp hb' with hb' | hb'
      · exact Or.inl (hb' ▸ List.mem_cons_self _ _)
      · rcases ih b' hb' with hm | ⟨b, hb, fs', hdf', heq⟩
        · exact Or.inl (List.mem_cons_of_mem _ hm)
        · exact Or.inr ⟨b, List.mem_cons_of_mem _ hb, fs', hdf', heq⟩

theorem editBounded_changeTaskStatus (s : Store) (tId status : String)
    (h : editBounded s) : editBounded (changeTaskStatus s tId status) := by
  intro b' hb' f' hf' u hu
  rcases setStatusBoards_shape tId status s.boards b' hb' with hm | ⟨b, hb, fs', hdf, rfl⟩
  · exact h b' hm f' hf' u hu
  · rcases setStatusFolders_shape hdf f' hf' with hm | ⟨f, hf, rfl⟩
    · exact h b hb f' hm u hu
    · rcases mem_updateFirst hu with htmem | ⟨z, hz, rfl⟩
      · exact h b hb f hf u htmem
      · show z.editCount ≤ 3
        exact h b hb f hf z (List.mem_of_find?_eq_some hz)

theorem findTaskFolders_setStatus (status : String) {tid : String}
    {fs : List Folder} {t : Task} (h : findTaskFolders tid fs = some t) :
    ∃ fs', setStatusFolders tid status fs = some fs' ∧
      findTaskFolders tid fs' = some { t with status := status } := by
  induction fs with
  | nil => simp [findTaskFolders] at h
  | cons f fs ih =>
    cases hf : f.tasks.find? (fun x => x.id == tid) with
    | some u =>
      simp only [findTaskFolders, hf] at h
      injection h with h
      subst h
      have hany : f.tasks.any (fun x => x.id == tid) = true :=
        any_eq_true_of_find?_some hf
      have hfind2 := find?_updateFirst_expl
        (fun x => { x with status := status }) hf
        (by have hx := List.find?_some hf; exact hx)
      refine ⟨{ f with
          tasks := updateFirst (fun x => x.id == tid)
            (fun x => { x with status := status }) f.tasks } :: fs, ?_, ?_⟩
      · simp only [setStatusFolders]
        rw [if_pos hany]
      · simp only [findTaskFolders, hfind2]
    | none =>
      simp only [findTaskFolders, hf] at h
      have hany : f.tasks.any (fun x => x.id == tid) = false :=
        any_eq_false_of_find?_none hf
      obtain ⟨fs', h1, h2⟩ := ih h
      refine ⟨f :: fs', ?_, ?_⟩
      · simp only [setStatusFolders]
        rw [if_neg (by simp [hany])]
        simp [h1]
      · simp only [findTaskFolders, hf, h2]

theorem setStatusFolders_none (status : String) {tid : String} {fs : List Folder}
    (h : findTaskFolders tid fs = none) :
    setStatusFolders tid status fs = none := by
  induction fs with
  | nil => rfl
  | cons f fs ih =>
    cases hf : f.tasks.find? (fun x => x.id == tid) with
    | some u => simp [findTaskFolders, hf] at h
    | none =>
      simp only [findTaskFolders, hf] at h
      have hany : f.tasks.any (fun x => x.id == tid) = false :=
        any_eq_false_of_find?_none hf
      simp only [setStatusFolders]
      rw [if_neg (by simp [hany])]
      simp [ih h]

theorem findTaskBoards_setStatus {tid status : String} {bs : List Board} {t : Task}
    (h : findTaskBoards tid bs = some t) :
    findTaskBoards tid (setStatusBoards tid status bs) =
      some { t with status := status } := by
  induction bs with
  | nil => simp [findTaskBoards] at h
  | cons b bs ih =>
    cases hb : findTaskFolders tid b.folders with
    | some u =>
      simp only [findTaskBoards, hb] at h
      injection h with h
      subst h
      obtain ⟨fs', h1, h2⟩ := findTaskFolders_setStatus status hb
      simp only [setStatusBoards, h1, findTaskBoards, h2]
    | none =>
      simp only [findTaskBoards, hb] at h
      have h0 : setStatusFolders tid status b.folders = none :=
        setStatusFolders_none status hb
      simp only [setStatusBoards, h0, findTaskBoards, hb, ih h]

theorem countP_eraseP_of_any {α : Type} {p : α → Bool} {l : List α}
    (h : l.any p = true) : (l.eraseP p).countP p + 1 = l.countP p := by
  induction l with
  | nil => simp at h
  | cons a as ih =>
    by_cases ha : p a = true
    · simp [List.eraseP_cons, ha, List.countP_cons]
    · have h' : as.any p = true := by simpa [List.any_cons, ha] using h
      have hih := ih h'
      simp [List.eraseP_cons, ha, List.countP_cons]
      omega

theorem deleteTaskFolders_none (tid : String) {fs : List Folder}
    (h : findTaskFolders tid fs = none) :
    deleteTaskFolders tid fs = none := by
  induction fs with
  | nil => rfl
  | cons f fs ih =>
    cases hf : f.tasks.find? (fun x => x.id == tid) with
    | some u => simp [findTaskFolders, hf] at h
    | none =>
      simp only [findTaskFolders, hf] at h
      have hany : f.tasks.any (fun t => t.id == tid) = false :=
        any_eq_false_of_find?_none hf
      simp only [deleteTaskFolders]
      rw [if_neg (by simp [hany])]
      simp [ih h]

theorem deleteTaskFolders_isSome {tid : String} {fs : List Folder} {t : Task}
    (h : findTaskFolders tid fs = some t) :
    ∃ fs', deleteTaskFolders tid fs = some fs' := by
  induction fs with
  | nil => simp [findTaskFolders] at h
  | cons f fs ih =>
    cases hf : f.tasks.find? (fun x => x.id == tid) with
    | some u =>
      have hany : f.tasks.any (fun t => t.id == tid) = true :=
        any_eq_true_of_find?_some hf
      refine ⟨{ f with tasks := f.tasks.eraseP (fun t => t.id == tid) } :: fs, ?_⟩
      simp only [deleteTaskFolders]
      rw [if_pos hany]
    | none =>
      simp only [findTaskFolders, hf] at h
      obtain ⟨fs', hfs'⟩ := ih h
      have hany : f.tasks.any (fun t => t.id == tid) = false :=
        any_eq_false_of_find?_none hf
      refine ⟨f :: fs', ?_⟩
      simp only [deleteTaskFolders]
      rw [if_neg (by simp [hany])]
      simp [hfs']

theorem occ_deleteTaskFolders {tid : String} {fs fs' : List Folder}
    (h : deleteTaskFolders tid fs = some fs') :
    (fs'.map (fun f => f.tasks.countP (fun t => t.id == tid))).sum + 1 =
    (fs.map (fun f => f.tasks.countP (fun t => t.id == tid))).sum := by
  induction fs generalizing fs' with
  | nil => simp [deleteTaskFolders] at h
  | cons a as ih =>
    simp only [deleteTaskFolders] at h
    by_cases ha : a.tasks.any (fun t => t.id == tid) = true
    · rw [if_pos ha] at h
      injection h with h
      subst h
      simp only [List.map_cons, List.sum_cons]
      have := countP_eraseP_of_any ha
      omega
    · rw [if_neg ha] at h
      cases hrec : deleteTaskFolders tid as with
      | none => rw [hrec] at h; exact absurd h (by simp)
      | some as' =>
        rw [hrec] at h
        injection h with h
        subst h
        simp only [List.map_cons, List.sum_cons]
        have := ih hrec
        omega

theorem occ_deleteTaskBoards {tid : String} {bs : List Board} {t : Task}
    (h : findTaskBoards tid bs = some t) :
    ((deleteTaskBoards tid bs).map (fun b =>
      (b.folders.map (fun f => f.tasks.countP (fun x => x.id == tid))).sum)).sum + 1 =
    (bs.map (fun b =>
      (b.folders.map (fun f => f.tasks.countP (fun x => x.id == tid))).sum)).sum := by
  induction bs with
  | nil => simp [findTaskBoards] at h
  | cons b bs ih =>
    cases hb : findTaskFolders tid b.folders with
    | some u =>
      obtain ⟨fs', hfs'⟩ := deleteTaskFolders_isSome hb
      simp only [deleteTaskBoards, hfs', List.map_cons, List.sum_cons]
      have := occ_deleteTaskFolders hfs'
      omega
    | none =>
      simp only [findTaskBoards, hb] at h
      have h0 : deleteTaskFolders tid b.folders = none :=
        deleteTaskFolders_none tid hb
      simp only [deleteTaskBoards, h0, List.map_cons, List.sum_cons]
      have := ih h
      omega

/-- C4: for a task with `editCount = 0`, three valid `editTask` calls each
succeed and raise `editCount` to 1, 2, 3; the fourth attempt fails with
`EditLimitReached` and leaves the store unchanged; `editCount` never
exceeds 3 after any store operation (preservation conjunct over all eight
operations); and on a task whose `editCount` is 3, `changeTaskStatus`
still succeeds — setting only the status, `editCount` untouched — and
`deleteTask` still succeeds, removing one occurrence of the task. -/
theorem edit_limit_lifecycle (store : Store) (bId fId tId : String) (t : Task)
    (e1 e2 e3 e4 : EditInput)
    (hfind : lookupTask store bId fId tId = some t) (h0 : t.editCount = 0)
    (hv1 : validEdit e1) (hv2 : validEdit e2) (hv3 : validEdit e3) :
    (∃ s1 s2 s3,
      updateTask store bId fId tId e1 = ⟨s1, none⟩ ∧
      (lookupTask s1 bId fId tId).map Task.editCount = some 1 ∧
      updateTask s1 bId fId tId e2 = ⟨s2, none⟩ ∧
      (lookupTask s2 bId fId tId).map Task.editCount = some 2 ∧
      updateTask s2 bId fId tId e3 = ⟨s3, none⟩ ∧
      (lookupTask s3 bId fId tId).map Task.editCount = some 3 ∧
      updateTask s3 bId fId tId e4 = ⟨s3, some OpError.editLimitReached⟩) ∧
    (∀ s : Store, editBounded s →
      (∀ i c n, editBounded (addBoard s i c n).store) ∧
      (∀ b i c n, editBounded (createFolder s b i c n).store) ∧
      (∀ b f i c ti pr a1 a2 a3 a4 de,
        editBounded (addTask s b f i c ti pr a1 a2 a3 a4 de).store) ∧
      (∀ b f ti e, editBounded (updateTask s b f ti e).store) ∧
      (∀ b, editBounded (deleteBoard s b)) ∧
      (∀ b f, editBounded (deleteFolderFromBoard s b f)) ∧
      (∀ ti, editBounded (deleteTask s ti)) ∧
      (∀ ti stat, editBounded (changeTaskStatus s ti stat))) ∧
    (∀ (s : Store) (tid stat : String) (u : Task),
      findTaskGlobal s tid = some u → u.editCount = 3 →
      findTaskGlobal (changeTaskStatus s tid stat) tid =
        some { u with status := stat }) ∧
    (∀ (s : Store) (tid : String) (u : Task),
      findTaskGlobal s tid = some u → u.editCount = 3 →
      taskOccurrences (deleteTask s tid) tid + 1 = taskOccurrences s tid) := by
  refine ⟨?_, ?_, ?_, ?_⟩
  · have hlt0 : t.editCount < 3 := by omega
    obtain ⟨heq1, hl1⟩ := updateTask_step hfind hlt0 hv1
    simp only [heq1] at hl1
    have hc1 : (applyEdit t e1).editCount = 1 := by simp [applyEdit, h0]
    obtain ⟨heq2, hl2⟩ := updateTask_step hl1 (by omega) hv2
    simp only [heq2] at hl2
    have hc2 : (applyEdit (applyEdit t e1) e2).editCount = 2 := by
      simp [applyEdit, h0]
    obtain ⟨heq3, hl3⟩ := updateTask_step hl2 (by omega) hv3
    simp only [heq3] at hl3
    have hc3 : (applyEdit (applyEdit (applyEdit t e1) e2) e3).editCount = 3 := by
      simp [applyEdit, h0]
    have hlim := updateTask_limit e4 hl3 (by omega)
    refine ⟨_, _, _, heq1, ?_, heq2, ?_, heq3, ?_, hlim⟩
    · rw [hl1]; simp [hc1]
    · rw [hl2]; simp [hc2]
    · rw [hl3]; simp [hc3]
  · intro s hs
    exact ⟨fun i c n => editBounded_addBoard s i c n hs,
      fun b i c n => editBounded_createFolder s b i c n hs,
      fun b f i c ti pr a1 a2 a3 a4 de =>
        editBounded_addTask s b f i c ti pr a1 a2 a3 a4 de hs,
      fun b f ti e => editBounded_updateTask s b f ti e hs,
      fun b => editBounded_deleteBoard s b hs,
      fun b f => editBounded_deleteFolder s b f hs,
      fun ti => editBounded_deleteTask s ti hs,
      fun ti stat => editBounded_changeTaskStatus s ti stat hs⟩
  · intro s tid stat u hu _h3
    exact findTaskBoards_setStatus hu
  · intro s tid u hu _h3
    exact occ_deleteTaskBoards hu

/-- Witness for `edit_limit_lifecycle` on `demoStore1`: three edits with
`demoEditAlpha` reach `editCount` 1, 2, 3, and the fourth fails with
`EditLimitReached` leaving the store unchanged. -/
theorem edit_limit_lifecycle_witness :
    ∃ s1 s2 s3,
      updateTask demoStore1 "b1" "f1" "t1" demoEditAlpha = ⟨s1, none⟩ ∧
      (lookupTask s1 "b1" "f1" "t1").map Task.editCount = some 1 ∧
      updateTask s1 "b1" "f1" "t1" demoEditAlpha = ⟨s2, none⟩ ∧
      (lookupTask s2 "b1" "f1" "t1").map Task.editCount = some 2 ∧
      updateTask s2 "b1" "f1" "t1" demoEditAlpha = ⟨s3, none⟩ ∧
      (lookupTask s3 "b1" "f1" "t1").map Task.editCount = some 3 ∧
      updateTask s3 "b1" "f1" "t1" demoEditAlpha =
        ⟨s3, some OpError.editLimitReached⟩ :=
  (edit_limit_lifecycle demoStore1 "b1" "f1" "t1"
    { id := "t1", title := "Alpha", priority := "low",
      startDate := "2024-01-01", startTime := "09:00",
      dueDate := "2024-01-02", dueTime := "10:00", description := "",
      status := "pending", createdAt := "c", editCount := 0,
      lastEdited := none }
    demoEditAlpha demoEditAlpha demoEditAlpha demoEditAlpha
    (by decide) (by decide) (by decide) (by decide) (by decide)).1

theorem map_folder_id (l : List Folder) :
    l.map (fun f => { f with tasks := f.tasks }) = l := by
  induction l with
  | nil => rfl
  | cons a as ih => simp only [List.map_cons, ih]

theorem searchData_of_ne (store : Store) (searchTerm searchType : String)
    (hne : jsTrim searchTerm ≠ "") :
    searchData store searchTerm searchType =
      { data := ⟨(store.boards.map
          (scanBoard (jsTrim (jsToLower searchTerm)) searchType)).filterMap
            (fun s => s.board)⟩,
        expandBoards := dedupKeepFirst (((store.boards.map
          (scanBoard (jsTrim (jsToLower searchTerm)) searchType)).map
            (fun s => s.expandB)).flatten),
        expandFolders := dedupKeepFirst (((store.boards.map
          (scanBoard (jsTrim (jsToLower searchTerm)) searchType)).map
            (fun s => s.expandF)).flatten) } := by
  simp only [searchData]
  rw [if_neg hne]

theorem scanBoard_name_match {term searchType : String} {b : Board}
    (hnm : ((searchType == "all" || searchType == "boards") &&
      jsIncludes (jsToLower b.name) term) = true) :
    (scanBoard term searchType b).board =
      some { b with
        folders := b.folders ++
          (b.folders.map (scanFolder term searchType b.id)).filterMap
            (fun s => s.folder) } := by
  simp [scanBoard, hnm, map_folder_id]

theorem scanFolder_matched {term searchType boardId : String} {f : Folder}
    (h : folderNameMatch term searchType f = true ∨
      ∃ u ∈ f.tasks, taskSearchMatch term searchType u = true) :
    ∃ g, (scanFolder term searchType boardId f).folder = some g ∧ g.id = f.id := by
  unfold scanFolder
  by_cases hfm : folderNameMatch term searchType f = true
  · rw [if_pos hfm]
    exact ⟨_, rfl, rfl⟩
  · rw [if_neg hfm]
    rcases h with h | ⟨u, hu, hmu⟩
    · exact absurd h hfm
    · have hmem : u ∈ f.tasks.filter (taskSearchMatch term searchType) :=
        List.mem_filter.mpr ⟨hu, hmu⟩
      have hne2 : (f.tasks.filter (taskSearchMatch term searchType)).isEmpty = false := by
        rcases hcase : (f.tasks.filter (taskSearchMatch term searchType)) with _ | ⟨y, ys⟩
        · rw [hcase] at hmem; simp at hmem
        · rfl
      rw [if_neg (by simp [hne2])]
      exact ⟨_, rfl, rfl⟩

theorem searchData_expandBoards_of_ne (store : Store)
    (searchTerm searchType : String) (hne : jsTrim searchTerm ≠ "") :
    (searchData store searchTerm searchType).expandBoards =
      dedupKeepFirst (((store.boards.map
        (scanBoard (jsTrim (jsToLower searchTerm)) searchType)).map
          (fun s => s.expandB)).flatten) := by
  rw [searchData_of_ne store searchTerm searchType hne]

theorem searchData_boards_mem {store : Store} {searchTerm searchType : String}
    {b b' : Board} (hb : b ∈ store.boards) (hne : jsTrim searchTerm ≠ "")
    (hscan : (scanBoard (jsTrim (jsToLower searchTerm)) searchType b).board =
      some b') :
    b' ∈ (searchData store searchTerm searchType).data.boards := by
  rw [searchData_of_ne store searchTerm searchType hne]
  exact List.mem_filterMap.mpr
    ⟨scanBoard (jsTrim (jsToLower searchTerm)) searchType b,
      List.mem_map_of_mem _ hb, hscan⟩

theorem scanBoard_expandB_justified {term searchType : String} {b : Board}
    {x : String} (hx : x ∈ (scanBoard term searchType b).expandB) :
    x = b.id ∧ ∃ f ∈ b.folders,
      folderNameMatch term searchType f = true ∨
      ∃ u ∈ f.tasks, taskSearchMatch term searchType u = true := by
  simp only [scanBoard] at hx
  rw [List.mem_flatten] at hx
  obtain ⟨l, hl, hxl⟩ := hx
  rw [List.mem_map] at hl
  obtain ⟨sc, hsc, rfl⟩ := hl
  rw [List.mem_map] at hsc
  obtain ⟨f, hf, rfl⟩ := hsc
  unfold scanFolder at hxl
  by_cases hfm : folderNameMatch term searchType f = true
  · rw [if_pos hfm] at hxl
    rw [List.mem_singleton] at hxl
    exact ⟨hxl, f, hf, Or.inl hfm⟩
  · rw [if_neg hfm] at hxl
    by_cases hemp : (f.tasks.filter (taskSearchMatch term searchType)).isEmpty = true
    · rw [if_pos hemp] at hxl
      simp at hxl
    · rw [if_neg hemp] at hxl
      rw [List.mem_map] at hxl
      obtain ⟨u, hu, rfl⟩ := hxl
      exact ⟨rfl, f, hf,
        Or.inr ⟨u, (List.mem_filter.mp hu).1, (List.mem_filter.mp hu).2⟩⟩

/-- C6: for scope `all` or `boards`, every board whose name contains the
query case-insensitively is included in the search output with the same
id and name and with its ENTIRE folder list (each folder with all of its
tasks) as an unfiltered prefix of the output board's folders; and no
board id enters the forced-expansion set on account of a board-name
match — every id in `expandBoards` is justified by a folder-name match or
a matching task inside that board. -/
theorem search_board_match_spec (store : Store) (searchTerm searchType : String)
    (b : Board) (hb : b ∈ store.boards)
    (hscope : searchType = "all" ∨ searchType = "boards")
    (hne : jsTrim searchTerm ≠ "")
    (hmatch : jsIncludes (jsToLower b.name) (jsTrim (jsToLower searchTerm)) = true) :
    (∃ b' ∈ (searchData store searchTerm searchType).data.boards,
      b'.id = b.id ∧ b'.name = b.name ∧
      ∃ suffix, b'.folders = b.folders ++ suffix) ∧
    (∀ x ∈ (searchData store searchTerm searchType).expandBoards,
      ∃ b2 ∈ store.boards, b2.id = x ∧ ∃ f ∈ b2.folders,
        folderNameMatch (jsTrim (jsToLower searchTerm)) searchType f = true ∨
        ∃ u ∈ f.tasks,
          taskSearchMatch (jsTrim (jsToLower searchTerm)) searchType u = true) := by
  constructor
  · have hnm : ((searchType == "all" || searchType == "boards") &&
        jsIncludes (jsToLower b.name) (jsTrim (jsToLower searchTerm))) = true := by
      rcases hscope with h | h <;> subst h <;> simp [hmatch]
    have hscan := scanBoard_name_match hnm
    exact ⟨_, searchData_boards_mem hb hne hscan, rfl, rfl, _, rfl⟩
  · intro x hx
    rw [searchData_expandBoards_of_ne store searchTerm searchType hne,
      mem_dedupKeepFirst, List.mem_flatten] at hx
    obtain ⟨l, hl, hxl⟩ := hx
    rw [List.mem_map] at hl
    obtain ⟨sc, hsc, rfl⟩ := hl
    rw [List.mem_map] at hsc
    obtain ⟨b2, hb2, rfl⟩ := hsc
    obtain ⟨hxid, f, hf, hjust⟩ := scanBoard_expandB_justified hxl
    exact ⟨b2, hb2, hxid.symm, f, hf, hjust⟩

/-- Witness for `search_board_match_spec`: searching `"work"` with scope
`boards` over `demoStore1` returns board `b1` with its full subtree as
prefix, and the expansion set is justified (here: empty). -/
theorem search_board_match_spec_witness :
    (∃ b' ∈ (searchData demoStore1 "work" "boards").data.boards,
      b'.id = "b1" ∧ b'.name = "Work" ∧
      ∃ suffix, b'.folders =
        [{ id := "f1", name := "Inbox", createdAt := "c", tasks :=
          [{ id := "t1", title := "Alpha", priority := "low",
             startDate := "2024-01-01", startTime := "09:00",
             dueDate := "2024-01-02", dueTime := "10:00", description := "",
             status := "pending", createdAt := "c", editCount := 0,
             lastEdited := none }] }] ++ suffix) ∧
    (∀ x ∈ (searchData demoStore1 "work" "boards").expandBoards,
      ∃ b2 ∈ demoStore1.boards, b2.id = x ∧ ∃ f ∈ b2.folders,
        folderNameMatch (jsTrim (jsToLower "work")) "boards" f = true ∨
        ∃ u ∈ f.tasks,
          taskSearchMatch (jsTrim (jsToLower "work")) "boards" u = true) := by
  have h := search_board_match_spec demoStore1 "work" "boards"
    { id := "b1", name := "Work", createdAt := "c", folders :=
      [{ id := "f1", name := "Inbox", createdAt := "c", tasks :=
        [{ id := "t1", title := "Alpha", priority := "low",
           startDate := "2024-01-01", startTime := "09:00",
           dueDate := "2024-01-02", dueTime := "10:00", description := "",
           status := "pending", createdAt := "c", editCount := 0,
           lastEdited := none }] }] }
    (by decide) (Or.inr rfl) (by decide) (by decide)
  exact h

/-- C10: under scope `all`, when a board's name matches the query and one
of its folders also matches (by name or via a matching task), the output
board lists that folder twice: once inside the unfiltered prefix copied
for the board-name match, and once again as the filtered folder appended
by the folder/task pass — so at least two entries with the folder's id. -/
theorem search_duplicate_folder_listing (store : Store) (searchTerm : String)
    (b : Board) (f : Folder) (hb : b ∈ store.boards) (hf : f ∈ b.folders)
    (hne : jsTrim searchTerm ≠ "")
    (hbmatch : jsIncludes (jsToLower b.name) (jsTrim (jsToLower searchTerm)) = true)
    (hfmatch : folderNameMatch (jsTrim (jsToLower searchTerm)) "all" f = true ∨
      ∃ u ∈ f.tasks,
        taskSearchMatch (jsTrim (jsToLower searchTerm)) "all" u = true) :
    ∃ b' ∈ (searchData store searchTerm "all").data.boards,
      b'.id = b.id ∧ ∃ suffix, b'.folders = b.folders ++ suffix ∧
        (∃ g ∈ suffix, g.id = f.id) ∧
        2 ≤ b'.folders.countP (fun g => g.id == f.id) := by
  have hnm : (("all" == "all" || "all" == "boards") &&
      jsIncludes (jsToLower b.name) (jsTrim (jsToLower searchTerm))) = true := by
    simp [hbmatch]
  have hscan := scanBoard_name_match hnm
  obtain ⟨g, hg, hgid⟩ := scanFolder_matched hfmatch
  have hgmem : g ∈ (b.folders.map
      (scanFolder (jsTrim (jsToLower searchTerm)) "all" b.id)).filterMap
        (fun s => s.folder) :=
    List.mem_filterMap.mpr
      ⟨scanFolder (jsTrim (jsToLower searchTerm)) "all" b.id f,
        List.mem_map_of_mem _ hf, hg⟩
  refine ⟨_, searchData_boards_mem hb hne hscan, rfl, _, rfl, ⟨g, hgmem, hgid⟩, ?_⟩
  rw [show ({ b with folders := b.folders ++ _ } : Board).folders =
    b.folders ++ _ from rfl]
  rw [List.countP_append]
  have h1 : 0 < b.folders.countP (fun g => g.id == f.id) := by
    rw [List.countP_pos_iff]
    exact ⟨f, hf, by simp⟩
  have h2 : 0 < ((b.folders.map
      (scanFolder (jsTrim (jsToLower searchTerm)) "all" b.id)).filterMap
        (fun s => s.folder)).countP (fun g => g.id == f.id) := by
    rw [List.countP_pos_iff]
    exact ⟨g, hgmem, by simp [hgid]⟩
  omega

/-- Witness for `search_duplicate_folder_listing`: board `"Work"` with
folder `"Workbench"` both match the query `"work"`, and the folder is
listed twice in the returned board. -/
theorem search_duplicate_folder_listing_witness :
    ∃ b' ∈ (searchData
        ⟨[{ id := "b1", name := "Work", createdAt := "c", folders :=
          [{ id := "f1", name := "Workbench", createdAt := "c", tasks := [] }] }]⟩
        "work" "all").data.boards,
      b'.id = "b1" ∧ ∃ suffix, b'.folders =
        [{ id := "f1", name := "Workbench", createdAt := "c", tasks := [] }] ++
          suffix ∧
        (∃ g ∈ suffix, g.id = "f1") ∧
        2 ≤ b'.folders.countP (fun g => g.id == "f1") := by
  have h := search_duplicate_folder_listing
    ⟨[{ id := "b1", name := "Work", createdAt := "c", folders :=
      [{ id := "f1", name := "Workbench", createdAt := "c", tasks := [] }] }]⟩
    "work"
    { id := "b1", name := "Work", createdAt := "c", folders :=
      [{ id := "f1", name := "Workbench", createdAt := "c", tasks := [] }] }
    { id := "f1", name := "Workbench", createdAt := "c", tasks := [] }
    (by decide) (by decide) (by decide) (by decide) (Or.inl (by decide))
  exact h

end SwiftTask
